import Mathlib

/-
  Shallow embedding of the affine-conic QP interior-point method of
  src/src/optimization/solvers/QP/affine/IPM/IPM.cpp (the dense Matrix
  overload and the regularization/solve phase of the sparse overload).

  Conventions:
  * the C++ `Real` template parameter is embedded as the exact rationals;
  * vectors are lists of rationals, dense matrices lists of rows;
  * BLAS-level primitives with fixed semantics (Dot, Axpy, Gemv, Shift,
    DiagonalScale, DiagonalSolve) are embedded directly; genuinely external
    collaborators (the 2-norm, the LDL factorization, the regularized
    refinement solver, the Ruiz equilibration iteration, Initialize) are
    parameters collected in an `Oracle` record, and code of the repository
    that is not part of the given sources (pos_orth helpers, the KKT
    assembly helpers) is modelled from the specification, as indicated in
    each doc comment.
-/

namespace Elem

/-- Vectors with rational entries, standing for the contiguous real vectors
of the C++ code. -/
abbrev Vec := List ℚ

/-- Dense matrices, stored as their list of rows. -/
abbrev Mat := List (List ℚ)

/-- Sparse matrices are embedded extensionally by their entry function. -/
abbrev SpMat := ℕ → ℕ → ℚ

/-- Dot product `Dot(u, v)`. -/
def dot (u v : Vec) : ℚ := (List.zipWith (fun a b => a * b) u v).sum

/-- Elementwise (Hadamard) product, the effect of
`DiagonalScale( LEFT, NORMAL, u, v )`. -/
def hadamard (u v : Vec) : Vec := List.zipWith (fun a b => a * b) u v

/-- Elementwise sum, the effect of `v += u`. -/
def vadd (u v : Vec) : Vec := List.zipWith (fun a b => a + b) u v

/-- Scaled addition `v := v + alpha * u`, the effect of `Axpy( alpha, u, v )`. -/
def axpy (alpha : ℚ) (u v : Vec) : Vec :=
  List.zipWith (fun ui vi => vi + alpha * ui) u v

/-- Add a scalar to every entry, the effect of `Shift( v, a )`. -/
def shift (v : Vec) (a : ℚ) : Vec := v.map (fun vi => vi + a)

/-- Multiply every entry by a scalar. -/
def scale (a : ℚ) (v : Vec) : Vec := v.map (fun vi => a * vi)

/-- `DiagonalScale( LEFT, NORMAL, d, v )` on a vector: multiply entry `i`
by `d i`. -/
def diagScale (d v : Vec) : Vec := List.zipWith (fun di vi => di * vi) d v

/-- `DiagonalSolve( LEFT, NORMAL, d, v )` on a vector: divide entry `i`
by `d i`. -/
def diagSolve (d v : Vec) : Vec := List.zipWith (fun di vi => vi / di) d v

/-- The all-ones vector `Ones( d, n, 1 )`. -/
def ones (n : ℕ) : Vec := List.replicate n 1

/-- Width of a row-major dense matrix (number of columns). -/
def width (M : Mat) : ℕ := (M.headD []).length

/-- Matrix-vector product `Gemv( NORMAL, 1, M, x, .. )`. -/
def matVec (M : Mat) (x : Vec) : Vec := M.map (fun row => dot row x)

/-- Transposed matrix-vector product `Gemv( TRANSPOSE, 1, M, y, .. )`. -/
def matTVec (M : Mat) (y : Vec) : Vec :=
  (List.zip y M).foldl (fun acc p => vadd acc (scale p.1 p.2))
    (List.replicate (width M) 0)

/-- Entry access of a dense matrix, with the usual zero default. -/
def entry (M : Mat) (i j : ℕ) : ℚ := (M.getD i []).getD j 0

/-- Entry of the symmetric matrix stored in lower-Hermitian form: the
lower triangle is authoritative and is mirrored above the diagonal. -/
def symLowerEntry (M : Mat) (i j : ℕ) : ℚ :=
  if j ≤ i then entry M i j else entry M j i

/-- `Hemv( LOWER, 1, Q, x, 0, d )`: symmetric matrix-vector product reading
only the lower triangle of `Q`. -/
def hemvLower (Q : Mat) (x : Vec) : Vec :=
  (List.range Q.length).map
    (fun i => ((List.range Q.length).map
      (fun j => symLowerEntry Q i j * x.getD j 0)).sum)

/-- `DiagonalSolve( LEFT, NORMAL, d, M )`: divide row `i` of `M` by `d i`. -/
def rowSolve (d : Vec) (M : Mat) : Mat :=
  List.zipWith (fun di row => List.map (fun a => a / di) row) d M

/-- `DiagonalSolve( RIGHT, NORMAL, d, M )`: divide column `j` of `M` by `d j`. -/
def colSolve (d : Vec) (M : Mat) : Mat :=
  M.map (fun row => List.zipWith (fun dj a => a / dj) d row)

/-- Modelled from the spec: `pos_orth::NumOutside`, an external helper whose
code is not among the given sources; per the spec it counts the nonpositive
entries of a vector. -/
def numOutside (v : Vec) : ℕ := v.countP (fun a => decide (a ≤ 0))

/-- One accumulation step of the max-step computation: a component with a
negative direction entry caps the step at its boundary ratio. -/
def maxStepF (alpha : ℚ) (p : ℚ × ℚ) : ℚ :=
  if p.2 < 0 then min alpha (-p.1 / p.2) else alpha

/-- Modelled from the spec: `pos_orth::MaxStep( v, dv, upperBound )`, an
external helper whose code is not among the given sources; per the spec it
returns min(upperBound, min over indices i with dv i < 0 of -(v i)/(dv i)),
and upperBound when no component of dv is negative. It is computed here by
a fold over the paired components. -/
def maxStep (v dv : Vec) (upperBound : ℚ) : ℚ :=
  (List.zip v dv).foldl maxStepF upperBound

/-- `RelativeComplementarityGap( primalObj, dualObj, dualityProduct )`,
transcribed from IPM.cpp lines 15-28. -/
def RelativeComplementarityGap (primalObj dualObj dualityProduct : ℚ) : ℚ :=
  if primalObj < 0 then dualityProduct / (-primalObj)
  else if dualObj > 0 then dualityProduct / dualObj
  else 2

/-- `RelativeObjectiveGap( primalObj, dualObj, dualityProduct )`, transcribed
from IPM.cpp lines 31-39 (the duality product argument is unused there). -/
def RelativeObjectiveGap (primalObj dualObj dualityProduct : ℚ) : ℚ :=
  |primalObj - dualObj| / (max |primalObj| |dualObj| + 1)

/-- The subset of `IPMCtrl` consumed by the embedded code paths. -/
structure IPMCtrl where
  primalInit : Bool
  dualInit : Bool
  standardInitShift : Bool
  outerEquil : Bool
  maxIts : ℕ
  infeasibilityTol : ℚ
  relativeObjectiveGapTol : ℚ
  relativeComplementarityGapTol : ℚ
  minDimacsDecreaseRatio : ℚ
  maxStepRatio : ℚ
  forceSameStep : Bool
  mehrotra : Bool
  centralityRule : ℚ → ℚ → ℚ → ℚ → ℚ
  xRegLarge : ℚ
  yRegLarge : ℚ
  zRegLarge : ℚ
  twoStage : Bool

/-- Result of a regularized sparse solve (`RegSolveInfo` plus the solution
the solve leaves in `d`). -/
structure SolveOutcome where
  sol : Vec
  metRequestedTol : Bool

/-- External collaborators of the driver, out of scope per the spec: norms,
equilibration scalings, the default initializer, the dense LDL
factorization, and the two regularized sparse solvers. -/
structure Oracle where
  nrm2 : Vec → ℚ
  stackedRuizScalings : Mat → Mat → Vec × Vec × Vec
  defaultInit : Mat → Mat → Mat → Vec → Vec → Vec → Bool → Vec × Vec × Vec × Vec
  ldl : Mat → Option (Vec → Vec)
  twoStageSolve : SpMat → Vec → Vec → SpMat → Vec → SolveOutcome
  regularizedSolve : SpMat → Vec → Vec → SpMat → Vec → SolveOutcome

/-- The (already copied, possibly equilibrated) problem data seen by the
iteration loop. -/
structure Prob where
  Q : Mat
  A : Mat
  G : Mat
  b : Vec
  c : Vec
  h : Vec

/-- The errors the driver can raise. -/
inductive IPMError where
  | invalidIterate (sNumNonPos zNumNonPos : ℕ)
  | iterLimit (maxIts : ℕ)
  | couldNotAchieveTol
deriving DecidableEq

/-- The in/out iterates (x, y, z, s). -/
abbrev Iters := Vec × Vec × Vec × Vec

/-- Outcome of one loop iteration: terminate (with success or an error), or
continue with updated iterates and the iteration's DIMACS error. -/
inductive IterStep where
  | done (st : Iters) (err : Option IPMError)
  | next (st : Iters) (dimacsError : ℚ)
deriving DecidableEq

/-- The duality measure `dualProd / k`, as computed for both mu and muAff. -/
def dualityMeasure (p : ℚ) (k : ℕ) : ℚ := p / k

/-- The per-iteration residual and gap quantities (IPM.cpp lines 187-236). -/
structure IterQ where
  dualProd : ℚ
  mu : ℚ
  primObj : ℚ
  dualObj : ℚ
  relObjGap : ℚ
  relCompGap : ℚ
  maxRelGap : ℚ
  rb : Vec
  rc : Vec
  rh : Vec
  rbConv : ℚ
  rcConv : ℚ
  rhConv : ℚ
  infeasError : ℚ
  dimacsError : ℚ

/-- Residual-and-gap computation of one iteration, transcribed from
IPM.cpp lines 187-236 of the dense overload. -/
def iterQuantities (orc : Oracle) (P : Prob) (bNrm2 cNrm2 hNrm2 : ℚ)
    (x y z s : Vec) : IterQ :=
  let k := P.G.length
  let dualProd := dot s z
  let mu := dualityMeasure dualProd k
  let d := hemvLower P.Q x
  let xTQx := dot x d
  let primObj := xTQx / 2 + dot P.c x
  let dualObj := -xTQx / 2 - dot P.b y - dot P.h z
  let relObjGap := RelativeObjectiveGap primObj dualObj dualProd
  let relCompGap := RelativeComplementarityGap primObj dualObj dualProd
  let maxRelGap := max relObjGap relCompGap
  let rb := vadd (scale (-1) P.b) (matVec P.A x)
  let rbConv := orc.nrm2 rb / (1 + bNrm2)
  let rc := vadd (vadd (vadd P.c (hemvLower P.Q x)) (matTVec P.A y)) (matTVec P.G z)
  let rcConv := orc.nrm2 rc / (1 + cNrm2)
  let rh := vadd (vadd (scale (-1) P.h) (matVec P.G x)) s
  let rhConv := orc.nrm2 rh / (1 + hNrm2)
  let infeasError := max (max rbConv rcConv) rhConv
  let dimacsError := max infeasError maxRelGap
  ⟨dualProd, mu, primObj, dualObj, relObjGap, relCompGap, maxRelGap,
   rb, rc, rh, rbConv, rcConv, rhConv, infeasError, dimacsError⟩

/-- The Boolean convergence test `metTolerances` of IPM.cpp lines 257-260. -/
def metTolB (ctrl : IPMCtrl) (q : IterQ) : Bool :=
  decide (q.infeasError ≤ ctrl.infeasibilityTol) &&
  decide (q.relCompGap ≤ ctrl.relativeComplementarityGapTol) &&
  decide (q.relObjGap ≤ ctrl.relativeObjectiveGapTol)

/-- Modelled from the spec: the dense KKT assembler `KKT( Q, A, G, s, z, J )`
is not among the given sources; per the spec it builds the symmetric
quasi-definite block matrix with blocks Q (lower-Hermitian), A and G with
their transposes, and -(Z^-1 S) on the trailing diagonal; the dense overload
passes no regularization, so the gamma terms are absent. -/
def kktEntry (Q A G : Mat) (s z : Vec) (n m : ℕ) (i j : ℕ) : ℚ :=
  if i < n then
    (if j < n then symLowerEntry Q i j
     else if j < n + m then entry A (j - n) i
     else entry G (j - (n + m)) i)
  else if i < n + m then
    (if j < n then entry A (i - n) j else 0)
  else
    (if j < n then entry G (i - (n + m)) j
     else if j = i then -(s.getD (i - (n + m)) 0 / z.getD (i - (n + m)) 0)
     else 0)

/-- Modelled from the spec: the dense KKT matrix of order n + m + k. -/
def kktMatrix (Q A G : Mat) (s z : Vec) : Mat :=
  let n := width A
  let m := A.length
  let k := G.length
  (List.range (n + m + k)).map
    (fun i => (List.range (n + m + k)).map (fun j => kktEntry Q A G s z n m i j))

/-- Modelled from the spec: `KKTRHS( rc, rb, rh, rmu, z, d )` is not among
the given sources; per the spec it stacks d = (-rc; -rb; -rh + rmu / z)
with the division elementwise. -/
def kktRHS (rc rb rh rmu z : Vec) : Vec :=
  scale (-1) rc ++ scale (-1) rb ++
    vadd (scale (-1) rh) (List.zipWith (fun ri zi => ri / zi) rmu z)

/-- Modelled from the spec: the slack component of `ExpandSolution`:
ds = z^-1 o (-rmu - s o dz), componentwise. -/
def expandDs : Vec → Vec → Vec → Vec → Vec
  | r :: rt, si :: st, di :: dt, zi :: zt =>
      (-r - si * di) / zi :: expandDs rt st dt zt
  | _, _, _, _ => []

/-- Modelled from the spec: `ExpandSolution( m, n, d, rmu, s, z, dx, dy, dz, ds )`
is not among the given sources; per the spec it splits the reduced solution
d into its (n, m, k)-sized components and reconstructs ds. -/
def expandSolution (m n : ℕ) (d rmu s z : Vec) : Vec × Vec × Vec × Vec :=
  let dx := d.take n
  let dy := (d.drop n).take m
  let dz := d.drop (n + m)
  (dx, dy, dz, expandDs rmu s dz z)

/-- The combined-phase update of r_mu, transcribed from IPM.cpp lines
368-377: shift by -sigma*mu, then add the Mehrotra corrector
dsAff o dzAff exactly when the `mehrotra` flag is set. -/
def shiftCorrect (mehrotra : Bool) (rmu dsAff dzAff : Vec) (sigma mu : ℚ) : Vec :=
  let r := shift rmu (-(sigma * mu))
  if mehrotra then vadd r (hadamard dsAff dzAff) else r

/-- The final primal/dual step sizes, transcribed from IPM.cpp lines
388-393. -/
def finalStepSizes (ctrl : IPMCtrl) (s ds z dz : Vec) : ℚ × ℚ :=
  let alphaPri0 := maxStep s ds (1 / ctrl.maxStepRatio)
  let alphaDual0 := maxStep z dz (1 / ctrl.maxStepRatio)
  let alphaPri := min (ctrl.maxStepRatio * alphaPri0) 1
  let alphaDual := min (ctrl.maxStepRatio * alphaDual0) 1
  if ctrl.forceSameStep then (min alphaPri alphaDual, min alphaPri alphaDual)
  else (alphaPri, alphaDual)

/-- The Newton phase of one dense iteration, transcribed from IPM.cpp lines
282-411: affine KKT solve, centrality, combined solve, step sizes, update,
stagnation check. -/
def newtonStep (orc : Oracle) (ctrl : IPMCtrl) (P : Prob) (q : IterQ)
    (met : Bool) (x y z s : Vec) : IterStep :=
  let m := P.A.length
  let n := width P.A
  let degree := P.G.length
  let rmu := hadamard s z
  let J := kktMatrix P.Q P.A P.G s z
  let d := kktRHS q.rc q.rb q.rh rmu z
  match orc.ldl J with
  | none =>
      IterStep.done (x, y, z, s)
        (if met then none else some IPMError.couldNotAchieveTol)
  | some solveAfter =>
      let dAff := solveAfter d
      let eAff := expandSolution m n dAff rmu s z
      let dzAff := eAff.2.2.1
      let dsAff := eAff.2.2.2
      let aAffP := maxStep s dsAff 1
      let aAffD := maxStep z dzAff 1
      let alphaAffPri := if ctrl.forceSameStep then min aAffP aAffD else aAffP
      let alphaAffDual := if ctrl.forceSameStep then min aAffP aAffD else aAffD
      let sHat := axpy alphaAffPri dsAff s
      let zHat := axpy alphaAffDual dzAff z
      let muAff := dualityMeasure (dot sHat zHat) degree
      let sigma := ctrl.centralityRule q.mu muAff alphaAffPri alphaAffDual
      let rmu2 := shiftCorrect ctrl.mehrotra rmu dsAff dzAff sigma q.mu
      let dComb := solveAfter (kktRHS q.rc q.rb q.rh rmu2 z)
      let eComb := expandSolution m n dComb rmu2 s z
      let dx := eComb.1
      let dy := eComb.2.1
      let dzC := eComb.2.2.1
      let dsC := eComb.2.2.2
      let steps := finalStepSizes ctrl s dsC z dzC
      let alphaPri := steps.1
      let alphaDual := steps.2
      let x1 := axpy alphaPri dx x
      let s1 := axpy alphaPri dsC s
      let y1 := axpy alphaDual dy y
      let z1 := axpy alphaDual dzC z
      if alphaPri = 0 ∧ alphaDual = 0 then
        IterStep.done (x1, y1, z1, s1)
          (if met then none else some IPMError.couldNotAchieveTol)
      else IterStep.next (x1, y1, z1, s1) q.dimacsError

/-- Residual computation, convergence gate, and dispatch to the Newton
phase, transcribed from IPM.cpp lines 187-280 of the dense overload. -/
def gateAndStep (orc : Oracle) (ctrl : IPMCtrl) (P : Prob)
    (bNrm2 cNrm2 hNrm2 : ℚ) (numIts : ℕ) (dimacsErrorOld : ℚ)
    (x y z s : Vec) : IterStep :=
  let q := iterQuantities orc P bNrm2 cNrm2 hNrm2 x y z s
  let met := metTolB ctrl q
  if met then
    if ctrl.minDimacsDecreaseRatio * dimacsErrorOld ≤ q.dimacsError then
      IterStep.done (x, y, z, s) none
    else if numIts = ctrl.maxIts then
      IterStep.done (x, y, z, s) none
    else newtonStep orc ctrl P q met x y z s
  else if numIts = ctrl.maxIts then
    IterStep.done (x, y, z, s) (some (IPMError.iterLimit ctrl.maxIts))
  else newtonStep orc ctrl P q met x y z s

/-- The positivity sanity check at the top of every iteration, transcribed
from IPM.cpp lines 178-185, followed by the rest of the iteration. -/
def coneCheckStep (orc : Oracle) (ctrl : IPMCtrl) (P : Prob)
    (bNrm2 cNrm2 hNrm2 : ℚ) (numIts : ℕ) (dimacsErrorOld : ℚ)
    (x y z s : Vec) : IterStep :=
  let sNumNonPos := numOutside s
  let zNumNonPos := numOutside z
  if 0 < sNumNonPos ∨ 0 < zNumNonPos then
    IterStep.done (x, y, z, s)
      (some (IPMError.invalidIterate sNumNonPos zNumNonPos))
  else gateAndStep orc ctrl P bNrm2 cNrm2 hNrm2 numIts dimacsErrorOld x y z s

/-- The iteration loop `for numIts = 0 .. maxIts` of IPM.cpp lines 176-412;
the fuel argument is maxIts + 1 - numIts, so the base case is the for-loop
condition failing. -/
def ipmLoop (orc : Oracle) (ctrl : IPMCtrl) (P : Prob)
    (bNrm2 cNrm2 hNrm2 : ℚ) :
    ℕ → ℕ → ℚ → Iters → Iters × Option IPMError
  | 0, _, _, st => (st, none)
  | Nat.succ fuel, numIts, dimacsErrorOld, st =>
      match coneCheckStep orc ctrl P bNrm2 cNrm2 hNrm2 numIts dimacsErrorOld
          st.1 st.2.1 st.2.2.1 st.2.2.2 with
      | IterStep.done st1 e => (st1, e)
      | IterStep.next st1 dimacsError =>
          ipmLoop orc ctrl P bNrm2 cNrm2 hNrm2 fuel (numIts + 1) dimacsError st1

/-- Modelled from the spec: `Initialize( Q, A, G, b, c, h, x, y, z, s,
primalInit, dualInit, standardInitShift )` is an external collaborator not
among the given sources; per the spec the initial iterate values are used
only when the corresponding init flag is set, and are otherwise replaced by
a default initializer (which receives the standardInitShift flag). -/
def initializeIters (orc : Oracle) (Q A G : Mat) (b c h : Vec)
    (primalInit dualInit standardInitShift : Bool) (x y z s : Vec) : Iters :=
  let d := orc.defaultInit Q A G b c h standardInitShift
  (if primalInit then x else d.1,
   if dualInit then y else d.2.1,
   if dualInit then z else d.2.2.1,
   if primalInit then s else d.2.2.2)

/-- The copies-and-equilibration preamble of the driver, transcribed from
IPM.cpp lines 105-144: the problem data is copied, then (only under
`outerEquil`) scaled by the Ruiz scalings, with warm-start iterates
transformed consistently under their init flags. -/
structure SetupOut where
  Q : Mat
  A : Mat
  G : Mat
  b : Vec
  c : Vec
  h : Vec
  x0 : Vec
  y0 : Vec
  z0 : Vec
  s0 : Vec
  dRowA : Vec
  dRowG : Vec
  dCol : Vec

/-- Driver preamble (IPM.cpp lines 105-144). -/
def ipmSetup (orc : Oracle) (ctrl : IPMCtrl) (QPre APre GPre : Mat)
    (bPre cPre hPre x y z s : Vec) : SetupOut :=
  let A := APre
  let G := GPre
  let b := bPre
  let c := cPre
  let h := hPre
  let Q := QPre
  let m := A.length
  let k := G.length
  let n := width A
  if ctrl.outerEquil then
    let dd := orc.stackedRuizScalings A G
    let dRowA := dd.1
    let dRowG := dd.2.1
    let dCol := dd.2.2
    ⟨rowSolve dCol (colSolve dCol Q),
     rowSolve dRowA (colSolve dCol A),
     rowSolve dRowG (colSolve dCol G),
     diagSolve dRowA b,
     diagSolve dCol c,
     diagSolve dRowG h,
     if ctrl.primalInit then diagScale dCol x else x,
     if ctrl.dualInit then diagScale dRowA y else y,
     if ctrl.dualInit then diagScale dRowG z else z,
     if ctrl.primalInit then diagSolve dRowG s else s,
     dRowA, dRowG, dCol⟩
  else ⟨Q, A, G, b, c, h, x, y, z, s, ones m, ones k, ones n⟩

/-- Setup, norm snapshots, initialization and the iteration loop of the
dense driver (IPM.cpp lines 105-412), before the final unscaling. -/
def ipmRun (orc : Oracle) (ctrl : IPMCtrl) (QPre APre GPre : Mat)
    (bPre cPre hPre x y z s : Vec) : Iters × Option IPMError :=
  let S := ipmSetup orc ctrl QPre APre GPre bPre cPre hPre x y z s
  let bNrm2 := orc.nrm2 S.b
  let cNrm2 := orc.nrm2 S.c
  let hNrm2 := orc.nrm2 S.h
  let st0 := initializeIters orc S.Q S.A S.G S.b S.c S.h
    ctrl.primalInit ctrl.dualInit ctrl.standardInitShift S.x0 S.y0 S.z0 S.s0
  ipmLoop orc ctrl ⟨S.Q, S.A, S.G, S.b, S.c, S.h⟩ bNrm2 cNrm2 hNrm2
    (ctrl.maxIts + 1) 0 1 st0

/-- The final unscaling of the iterates (IPM.cpp lines 417-420). -/
def unscaleIters (dCol dRowA dRowG : Vec) (st : Iters) : Iters :=
  (diagSolve dCol st.1, diagSolve dRowA st.2.1,
   diagSolve dRowG st.2.2.1, diagScale dRowG st.2.2.2)

/-- The dense-overload driver `IPM` (IPM.cpp lines 89-422): it returns the
final iterates together with the raised error, if any; the unscaling of
lines 415-421 runs only on normal return, since a raised error propagates
past it. -/
def IPMDense (orc : Oracle) (ctrl : IPMCtrl) (QPre APre GPre : Mat)
    (bPre cPre hPre x y z s : Vec) : Iters × Option IPMError :=
  let S := ipmSetup orc ctrl QPre APre GPre bPre cPre hPre x y z s
  let r := ipmRun orc ctrl QPre APre GPre bPre cPre hPre x y z s
  match r.2 with
  | some e => (r.1, some e)
  | none =>
      (if ctrl.outerEquil then unscaleIters S.dCol S.dRowA S.dRowG r.1 else r.1,
       none)

/-- The caller's view of an `IPM` call: the problem data is passed by
const reference and copied inside the driver (`auto A = APre;` etc.,
IPM.cpp lines 106-111), while x, y, z, s are in/out references. -/
structure CallerArrays where
  Q : Mat
  A : Mat
  G : Mat
  b : Vec
  c : Vec
  h : Vec
  x : Vec
  y : Vec
  z : Vec
  s : Vec

/-- An `IPM` call as the caller observes it: only the iterate references
are written back; the problem-data bindings are untouched because the
driver works on its private copies. -/
def IPMDenseCall (orc : Oracle) (ctrl : IPMCtrl) (env : CallerArrays) :
    CallerArrays × Option IPMError :=
  let r := IPMDense orc ctrl env.Q env.A env.G env.b env.c env.h
    env.x env.y env.z env.s
  (⟨env.Q, env.A, env.G, env.b, env.c, env.h,
    r.1.1, r.1.2.1, r.1.2.2.1, r.1.2.2.2⟩, r.2)

/-- The large-regularization vector of the sparse overload, transcribed
from IPM.cpp lines 914-923: signed entries +xRegLarge / -yRegLarge /
-zRegLarge for the x-, y- and z-rows, then the whole vector is multiplied
by the two-norm estimate. -/
def mkRegLarge (n m k : ℕ) (xRegLarge yRegLarge zRegLarge : ℚ)
    (origTwoNormEst : ℚ) : Vec :=
  ((List.range (n + m + k)).map
    (fun i => if i < n then xRegLarge
              else if i < n + m then -yRegLarge
              else -zRegLarge)).map
    (fun a => a * origTwoNormEst)

/-- Modelled from the spec: `FinishKKT( m, n, s, z, JOrig )` is not among
the given sources; per the spec it appends the dynamic diagonal -(s i / z i)
on rows n+m .. n+m+k-1 of the copied static KKT matrix. -/
def finishKKT (m n : ℕ) (s z : Vec) (J : SpMat) : SpMat := fun i j =>
  if i = j ∧ n + m ≤ i ∧ i < n + m + s.length then
    J i j - s.getD (i - (n + m)) 0 / z.getD (i - (n + m)) 0
  else J i j

/-- `UpdateDiagonal( J, alpha, d )`: add `alpha * d i` to the diagonal. -/
def updateDiagonal (J : SpMat) (alpha : ℚ) (d : Vec) : SpMat := fun i j =>
  if i = j then J i j + alpha * d.getD i 0 else J i j

/-- The unregularized per-iteration KKT matrix `JOrig` of the sparse
overload (IPM.cpp lines 1070-1073): the static matrix with the dynamic
diagonal appended. -/
def sparseJOrig (JStatic : SpMat) (m n : ℕ) (s z : Vec) : SpMat :=
  finishKKT m n s z JStatic

/-- The factored KKT matrix `J` of the sparse overload (IPM.cpp lines
1077-1082): `JOrig` plus the large-regularization diagonal. -/
def sparseJ (JStatic : SpMat) (m n : ℕ) (s z : Vec) (regLarge : Vec) : SpMat :=
  updateDiagonal (sparseJOrig JStatic m n s z) 1 regLarge

/-- The factor-and-solve phase of one sparse iteration, transcribed from
IPM.cpp lines 1070-1126: the regularized `J` is factored; the solves
(two-stage fast path, then the regularized fallback) refine against the
preserved unregularized `JOrig`; on refinement failure the iteration breaks
successfully when tolerances were already met and raises otherwise. -/
def sparseSolveStep (orc : Oracle) (ctrl : IPMCtrl) (JStatic : SpMat)
    (regLarge : Vec) (m n k : ℕ) (s z d : Vec) (metTolerances : Bool) :
    Vec ⊕ Option IPMError :=
  let JOrig := sparseJOrig JStatic m n s z
  let J := sparseJ JStatic m n s z regLarge
  let dInner := ones (n + m + k)
  let fact := J
  let info :=
    if ctrl.twoStage then orc.twoStageSolve JOrig regLarge dInner fact d
    else ⟨d, false⟩
  if info.metRequestedTol then Sum.inl info.sol
  else
    let info2 := orc.regularizedSolve JOrig regLarge dInner fact d
    if info2.metRequestedTol then Sum.inl info2.sol
    else if metTolerances then Sum.inr none
    else Sum.inr (some IPMError.couldNotAchieveTol)

/-- A trivial concrete oracle used to evaluate the driver on small inputs. -/
def oracle0 : Oracle :=
  ⟨fun _ => 0,
   fun _ _ => ([], [], []),
   fun _ _ _ _ _ _ _ => ([], [], [], []),
   fun _ => some id,
   fun _ _ _ _ d => ⟨d, true⟩,
   fun _ _ _ _ d => ⟨d, true⟩⟩

/-- A concrete oracle whose Ruiz scalings fit a problem with m = 0, k = 1,
n = 0. -/
def oracle9 : Oracle :=
  ⟨fun _ => 0,
   fun _ _ => ([], [1], []),
   fun _ _ _ _ _ _ _ => ([], [], [], []),
   fun _ => some id,
   fun _ _ _ _ d => ⟨d, true⟩,
   fun _ _ _ _ d => ⟨d, true⟩⟩

/-- A concrete control structure: warm start, no equilibration, maxIts = 0. -/
def ctrl0 : IPMCtrl :=
  ⟨true, true, false, false, 0, 1, 1, 3, 1, 99 / 100, false, true,
   fun _ _ _ _ => 0, 1, 1, 1, true⟩

/-- A concrete control structure: warm start with outer equilibration. -/
def ctrl9 : IPMCtrl :=
  ⟨true, true, false, true, 0, 1, 1, 3, 1, 99 / 100, false, true,
   fun _ _ _ _ => 0, 1, 1, 1, true⟩

theorem foldl_maxStepF_le_init (l : List (ℚ × ℚ)) (a : ℚ) :
    l.foldl maxStepF a ≤ a := by
  induction l generalizing a with
  | nil => simp
  | cons p l ih =>
    rw [List.foldl_cons]
    refine le_trans (ih _) ?_
    unfold maxStepF
    split
    · exact min_le_left _ _
    · exact le_refl a

theorem foldl_maxStepF_le_mem (l : List (ℚ × ℚ)) (a : ℚ) (p : ℚ × ℚ)
    (hp : p ∈ l) (hneg : p.2 < 0) : l.foldl maxStepF a ≤ -p.1 / p.2 := by
  induction l generalizing a with
  | nil => simp at hp
  | cons q l ih =>
    rw [List.foldl_cons]
    rcases List.mem_cons.mp hp with h | h
    · subst h
      refine le_trans (foldl_maxStepF_le_init l _) ?_
      unfold maxStepF
      rw [if_pos hneg]
      exact min_le_right _ _
    · exact ih _ h

theorem foldl_maxStepF_cases (l : List (ℚ × ℚ)) (a : ℚ) :
    l.foldl maxStepF a = a
      ∨ ∃ p ∈ l, p.2 < 0 ∧ l.foldl maxStepF a = -p.1 / p.2 := by
  induction l generalizing a with
  | nil => simp
  | cons q l ih =>
    rw [List.foldl_cons]
    by_cases hq : q.2 < 0
    · have hstep : maxStepF a q = min a (-q.1 / q.2) := by
        unfold maxStepF; rw [if_pos hq]
      rcases ih (maxStepF a q) with h | ⟨p, hp, hneg, he⟩
      · rw [h, hstep]
        rcases le_total a (-q.1 / q.2) with hle | hle
        · left; exact min_eq_left hle
        · right; exact ⟨q, List.mem_cons_self q l, hq, min_eq_right hle⟩
      · right; exact ⟨p, List.mem_cons_of_mem _ hp, hneg, he⟩
    · have hstep : maxStepF a q = a := by
        unfold maxStepF; rw [if_neg hq]
      rw [hstep]
      rcases ih a with h | ⟨p, hp, hneg, he⟩
      · left; exact h
      · right; exact ⟨p, List.mem_cons_of_mem _ hp, hneg, he⟩

theorem foldl_maxStepF_of_nonneg (l : List (ℚ × ℚ)) (a : ℚ)
    (h : ∀ p ∈ l, ¬ p.2 < 0) : l.foldl maxStepF a = a := by
  induction l generalizing a with
  | nil => simp
  | cons q l ih =>
    rw [List.foldl_cons]
    have hq : maxStepF a q = a := by
      unfold maxStepF; rw [if_neg (h q (List.mem_cons_self q l))]
    rw [hq]
    exact ih _ (fun p hp => h p (List.mem_cons_of_mem _ hp))

/-- Claim C3: for all primObj, dualObj and duality product, the relative
complementarity gap is the duality product over -primObj when primObj is
negative, else the duality product over dualObj when dualObj is positive,
and exactly 2 otherwise, signalling the inadmissible sign configuration. -/
theorem claim_C3 (p d pi : ℚ) :
    (p < 0 → RelativeComplementarityGap p d pi = pi / (-p))
    ∧ (¬ p < 0 → 0 < d → RelativeComplementarityGap p d pi = pi / d)
    ∧ (¬ p < 0 → ¬ 0 < d → RelativeComplementarityGap p d pi = 2) := by
  refine ⟨fun h => ?_, fun h1 h2 => ?_, fun h1 h2 => ?_⟩
  · simp only [RelativeComplementarityGap]
    rw [if_pos h]
  · simp only [RelativeComplementarityGap]
    rw [if_neg h1, if_pos h2]
  · simp only [RelativeComplementarityGap]
    rw [if_neg h1, if_neg h2]

theorem claim_C3_witness :
    RelativeComplementarityGap (-1) 1 5 = 5
    ∧ RelativeComplementarityGap 1 1 5 = 5
    ∧ RelativeComplementarityGap 1 (-1) 5 = 2 := by
  refine ⟨?_, ?_, ?_⟩
  · have h := (claim_C3 (-1) 1 5).1 (by norm_num)
    simpa using h
  · have h := (claim_C3 1 1 5).2.1 (by norm_num) (by norm_num)
    simpa using h
  · exact (claim_C3 1 (-1) 5).2.2 (by norm_num) (by norm_num)

/-- Claim C4: the final step sizes of every iteration are
min(eta * maxStep(s, ds, 1/eta), 1) and min(eta * maxStep(z, dz, 1/eta), 1),
unified to their minimum under forceSameStep, where maxStep(v, dv, ub) is
bounded by ub, bounded by every boundary ratio -(v i)/(dv i) over the
negative direction components, equals one of those bounds, and equals ub
when no direction component is negative. -/
theorem claim_C4 (ctrl : IPMCtrl) (s ds z dz v dv : Vec) (ub : ℚ) :
    ((∀ p ∈ v.zip dv, ¬ p.2 < 0) → maxStep v dv ub = ub)
    ∧ maxStep v dv ub ≤ ub
    ∧ (∀ p ∈ v.zip dv, p.2 < 0 → maxStep v dv ub ≤ -p.1 / p.2)
    ∧ (maxStep v dv ub = ub
        ∨ ∃ p ∈ v.zip dv, p.2 < 0 ∧ maxStep v dv ub = -p.1 / p.2)
    ∧ finalStepSizes ctrl s ds z dz =
        (if ctrl.forceSameStep then
          (min (min (ctrl.maxStepRatio * maxStep s ds (1 / ctrl.maxStepRatio)) 1)
               (min (ctrl.maxStepRatio * maxStep z dz (1 / ctrl.maxStepRatio)) 1),
           min (min (ctrl.maxStepRatio * maxStep s ds (1 / ctrl.maxStepRatio)) 1)
               (min (ctrl.maxStepRatio * maxStep z dz (1 / ctrl.maxStepRatio)) 1))
         else
          (min (ctrl.maxStepRatio * maxStep s ds (1 / ctrl.maxStepRatio)) 1,
           min (ctrl.maxStepRatio * maxStep z dz (1 / ctrl.maxStepRatio)) 1)) := by
  exact ⟨fun h => foldl_maxStepF_of_nonneg _ _ h,
    foldl_maxStepF_le_init _ _,
    fun p hp hneg => foldl_maxStepF_le_mem _ _ p hp hneg,
    foldl_maxStepF_cases _ _, rfl⟩

theorem claim_C4_witness :
    maxStep [(1 : ℚ)] [(-2 : ℚ)] 10 ≤ -(1 : ℚ) / (-2 : ℚ)
    ∧ maxStep [(1 : ℚ)] [(-2 : ℚ)] 10 ≤ 10 := by
  refine ⟨?_, (claim_C4 ctrl0 [] [] [] [] [(1 : ℚ)] [(-2 : ℚ)] 10).2.1⟩
  exact (claim_C4 ctrl0 [] [] [] [] [(1 : ℚ)] [(-2 : ℚ)] 10).2.2.1
    ((1 : ℚ), (-2 : ℚ)) (by decide) (by norm_num)

/-- Claim C5: at the top of every iteration, a nonpositive entry in s or z
makes the driver raise the logic error carrying the two counts of
nonpositive entries, with the iterates unmodified on that path; if both
counts are zero the iteration proceeds to the residual computation and
gate. -/
theorem claim_C5 (orc : Oracle) (ctrl : IPMCtrl) (P : Prob)
    (bN cN hN : ℚ) (numIts fuel : ℕ) (dOld : ℚ) (x y z s : Vec) :
    (0 < numOutside s ∨ 0 < numOutside z →
      coneCheckStep orc ctrl P bN cN hN numIts dOld x y z s
        = IterStep.done (x, y, z, s)
            (some (IPMError.invalidIterate (numOutside s) (numOutside z)))
      ∧ ipmLoop orc ctrl P bN cN hN (fuel + 1) numIts dOld (x, y, z, s)
        = ((x, y, z, s),
           some (IPMError.invalidIterate (numOutside s) (numOutside z))))
    ∧ (numOutside s = 0 → numOutside z = 0 →
      coneCheckStep orc ctrl P bN cN hN numIts dOld x y z s
        = gateAndStep orc ctrl P bN cN hN numIts dOld x y z s) := by
  constructor
  · intro h
    have hc : coneCheckStep orc ctrl P bN cN hN numIts dOld x y z s
        = IterStep.done (x, y, z, s)
            (some (IPMError.invalidIterate (numOutside s) (numOutside z))) := by
      simp only [coneCheckStep]
      rw [if_pos h]
    refine ⟨hc, ?_⟩
    simp only [ipmLoop]
    rw [hc]
  · intro hs hz
    simp only [coneCheckStep]
    rw [if_neg ?_]
    rw [hs, hz]
    simp

theorem claim_C5_witness :
    coneCheckStep oracle0 ctrl0 ⟨[], [], [[]], [], [], [0]⟩ 0 0 0 0 0
        [] [] [1] [-1]
      = IterStep.done ([], [], [1], [-1])
          (some (IPMError.invalidIterate 1 0)) := by
  exact (claim_C5 oracle0 ctrl0 ⟨[], [], [[]], [], [], [0]⟩ 0 0 0 0 0 0
    [] [] [1] [-1]).1 (Or.inl (by decide)) |>.1

/-- Claim C8: the caller's problem-data arguments Q, A, G, b, c, h are
unchanged by any IPM call, normal or erroneous: the driver binds private
copies and writes only the iterate references. -/
theorem claim_C8 (orc : Oracle) (ctrl : IPMCtrl) (env : CallerArrays) :
    ((IPMDenseCall orc ctrl env).1).Q = env.Q
    ∧ ((IPMDenseCall orc ctrl env).1).A = env.A
    ∧ ((IPMDenseCall orc ctrl env).1).G = env.G
    ∧ ((IPMDenseCall orc ctrl env).1).b = env.b
    ∧ ((IPMDenseCall orc ctrl env).1).c = env.c
    ∧ ((IPMDenseCall orc ctrl env).1).h = env.h :=
  ⟨rfl, rfl, rfl, rfl, rfl, rfl⟩

/-- Claim C10: the barrier parameter is computed as the duality product
divided by k = G.Height() with no guard against k = 0, so a call with k = 0
divides by zero (rational division by zero in this embedding, a junk value
in place of the ill-defined quotient). -/
theorem claim_C10 (orc : Oracle) (P : Prob) (bN cN hN : ℚ) (x y z s : Vec)
    (hk : P.G.length = 0) :
    (iterQuantities orc P bN cN hN x y z s).mu = dot s z / (0 : ℚ)
    ∧ (iterQuantities orc P bN cN hN x y z s).mu
        = dualityMeasure (dot s z) P.G.length := by
  constructor
  · simp [iterQuantities, dualityMeasure, hk]
  · simp [iterQuantities]

theorem claim_C10_witness :
    (iterQuantities oracle0 ⟨[], [], [], [], [], []⟩ 0 0 0 [] [] [] []).mu
      = dot [] [] / (0 : ℚ) := by
  exact (claim_C10 oracle0 ⟨[], [], [], [], [], []⟩ 0 0 0 [] [] [] [] rfl).1

/-- Claim C1: the per-iteration termination decision. With met the
conjunction of the three tolerance tests: if met holds and either the
DIMACS error did not decrease by at least the factor
minDimacsDecreaseRatio over the previous iteration's DIMACS error or the
iteration counter equals maxIts, the iteration terminates successfully; if
met fails and the counter equals maxIts, the iteration-limit error is
raised; otherwise the iteration proceeds to the Newton step. -/
theorem claim_C1 (orc : Oracle) (ctrl : IPMCtrl) (P : Prob)
    (bN cN hN : ℚ) (numIts : ℕ) (dOld : ℚ) (x y z s : Vec) :
    (metTolB ctrl (iterQuantities orc P bN cN hN x y z s) = true →
      (ctrl.minDimacsDecreaseRatio * dOld
          ≤ (iterQuantities orc P bN cN hN x y z s).dimacsError
        ∨ numIts = ctrl.maxIts) →
      gateAndStep orc ctrl P bN cN hN numIts dOld x y z s
        = IterStep.done (x, y, z, s) none)
    ∧ (metTolB ctrl (iterQuantities orc P bN cN hN x y z s) = false →
       numIts = ctrl.maxIts →
      gateAndStep orc ctrl P bN cN hN numIts dOld x y z s
        = IterStep.done (x, y, z, s) (some (IPMError.iterLimit ctrl.maxIts)))
    ∧ (metTolB ctrl (iterQuantities orc P bN cN hN x y z s) = true →
       (iterQuantities orc P bN cN hN x y z s).dimacsError
          < ctrl.minDimacsDecreaseRatio * dOld →
       numIts ≠ ctrl.maxIts →
      gateAndStep orc ctrl P bN cN hN numIts dOld x y z s
        = newtonStep orc ctrl P (iterQuantities orc P bN cN hN x y z s)
            true x y z s)
    ∧ (metTolB ctrl (iterQuantities orc P bN cN hN x y z s) = false →
       numIts ≠ ctrl.maxIts →
      gateAndStep orc ctrl P bN cN hN numIts dOld x y z s
        = newtonStep orc ctrl P (iterQuantities orc P bN cN hN x y z s)
            false x y z s) := by
  refine ⟨fun hmet hor => ?_, fun hmet heq => ?_,
    fun hmet hlt hne => ?_, fun hmet hne => ?_⟩
  · simp only [gateAndStep, hmet, if_true]
    rcases hor with h | h
    · rw [if_pos h]
    · by_cases hdim : ctrl.minDimacsDecreaseRatio * dOld
          ≤ (iterQuantities orc P bN cN hN x y z s).dimacsError
      · rw [if_pos hdim]
      · rw [if_neg hdim, if_pos h]
  · simp only [gateAndStep, hmet, Bool.false_eq_true, if_false]
    rw [if_pos heq]
  · simp only [gateAndStep, hmet, if_true]
    rw [if_neg (not_le.mpr hlt), if_neg hne]
  · simp only [gateAndStep, hmet, Bool.false_eq_true, if_false]
    rw [if_neg hne]

theorem claim_C1_witness :
    gateAndStep oracle0 ctrl0 ⟨[], [], [], [], [], []⟩ 0 0 0 0 1 [] [] [] []
      = IterStep.done ([], [], [], []) none := by
  refine (claim_C1 oracle0 ctrl0 ⟨[], [], [], [], [], []⟩ 0 0 0 0 1
    [] [] [] []).1 ?_ (Or.inl ?_)
  · norm_num [metTolB, iterQuantities, dualityMeasure, dot, hemvLower,
      RelativeObjectiveGap, RelativeComplementarityGap, vadd, scale,
      matVec, matTVec, width, hadamard, oracle0, ctrl0]
  · norm_num [iterQuantities, dualityMeasure, dot, hemvLower,
      RelativeObjectiveGap, RelativeComplementarityGap, vadd, scale,
      matVec, matTVec, width, hadamard, oracle0, ctrl0]

theorem getD_zipWith (f : ℚ → ℚ → ℚ) (u v : Vec) (i : ℕ)
    (hu : i < u.length) (hv : i < v.length) :
    (List.zipWith f u v).getD i 0 = f (u.getD i 0) (v.getD i 0) := by
  induction u generalizing v i with
  | nil => simp at hu
  | cons a u ih =>
    cases v with
    | nil => simp at hv
    | cons b v =>
      cases i with
      | zero => simp
      | succ i =>
        simp only [List.zipWith_cons_cons, List.getD_cons_succ]
        exact ih v i (by simpa using hu) (by simpa using hv)

theorem getD_map (f : ℚ → ℚ) (l : Vec) (i : ℕ) (hi : i < l.length) :
    (l.map f).getD i 0 = f (l.getD i 0) := by
  induction l generalizing i with
  | nil => simp at hi
  | cons a l ih =>
    cases i with
    | zero => simp
    | succ i =>
      simp only [List.map_cons, List.getD_cons_succ]
      exact ih i (by simpa using hi)

/-- Claim C7: before the combined solve, r_mu is first the Hadamard product
s o z, then shifted by -sigma*mu in every component, and incremented by the
Hadamard product of the affine directions exactly when the mehrotra flag is
set; with the flag clear no corrector term is added. -/
theorem claim_C7 (meh : Bool) (s z dsa dza : Vec) (sigma mu : ℚ) (i : ℕ)
    (h1 : i < s.length) (h2 : i < z.length)
    (h3 : i < dsa.length) (h4 : i < dza.length) :
    (shiftCorrect meh (hadamard s z) dsa dza sigma mu).getD i 0
      = s.getD i 0 * z.getD i 0 - sigma * mu
        + (if meh then dsa.getD i 0 * dza.getD i 0 else 0)
    ∧ (meh = false →
        shiftCorrect meh (hadamard s z) dsa dza sigma mu
          = shift (hadamard s z) (-(sigma * mu))) := by
  have hlen : i < (hadamard s z).length := by
    simp only [hadamard, List.length_zipWith]
    omega
  have hh : (hadamard s z).getD i 0 = s.getD i 0 * z.getD i 0 := by
    simp only [hadamard]
    exact getD_zipWith _ _ _ _ h1 h2
  have hshift : (shift (hadamard s z) (-(sigma * mu))).getD i 0
      = s.getD i 0 * z.getD i 0 - sigma * mu := by
    simp only [shift]
    rw [getD_map _ _ _ hlen, hh]
    ring
  have hshiftLen : i < (shift (hadamard s z) (-(sigma * mu))).length := by
    simpa [shift] using hlen
  cases meh with
  | false =>
    refine ⟨?_, fun _ => rfl⟩
    have hunf : shiftCorrect false (hadamard s z) dsa dza sigma mu
        = shift (hadamard s z) (-(sigma * mu)) := by
      simp [shiftCorrect]
    rw [hunf, hshift]
    simp
  | true =>
    refine ⟨?_, fun h => by simp at h⟩
    have hunf : shiftCorrect true (hadamard s z) dsa dza sigma mu
        = vadd (shift (hadamard s z) (-(sigma * mu))) (hadamard dsa dza) := by
      simp [shiftCorrect]
    have hh2 : (hadamard dsa dza).getD i 0 = dsa.getD i 0 * dza.getD i 0 := by
      simp only [hadamard]
      exact getD_zipWith _ _ _ _ h3 h4
    have hlen2 : i < (hadamard dsa dza).length := by
      simp only [hadamard, List.length_zipWith]
      omega
    rw [hunf]
    simp only [vadd]
    rw [getD_zipWith _ _ _ _ hshiftLen hlen2, hshift, hh2]
    simp

theorem claim_C7_witness :
    (shiftCorrect true (hadamard [2] [3]) [5] [7] 1 1).getD 0 0
      = (2 : ℚ) * 3 - 1 * 1 + (if true then (5 : ℚ) * 7 else 0) := by
  exact (claim_C7 true [2] [3] [5] [7] 1 1 0 (by decide) (by decide)
    (by decide) (by decide)).1

theorem mkRegLarge_getD (n m k : ℕ) (xL yL zL est : ℚ) (i : ℕ)
    (hi : i < n + m + k) :
    (mkRegLarge n m k xL yL zL est).getD i 0
      = (if i < n then xL else if i < n + m then -yL else -zL) * est := by
  have hlen1 : i < (((List.range (n + m + k)).map
      (fun i => if i < n then xL else if i < n + m then -yL else -zL)).map
        (fun a => a * est)).length := by
    simpa using hi
  simp only [mkRegLarge]
  rw [List.getD_eq_getElem _ _ hlen1]
  simp [List.getElem_map, List.getElem_range]

/-- Claim C6: in the sparse backend the large regularization vector has
entry +xRegLarge on each of the first n rows, -yRegLarge on the next m rows
and -zRegLarge on the last k rows, every entry multiplied by the two-norm
estimate of Q, A and G plus one; the factored matrix equals
JOrig + diag(regLarge) entrywise, while the solve phase consults the solver
oracles only at the preserved unregularized JOrig (the refinement system)
together with the factored J. -/
theorem claim_C6 (orc1 orc2 : Oracle) (ctrl : IPMCtrl) (JStatic : SpMat)
    (m n k i j : ℕ) (s z d : Vec) (met : Bool) (estQ estA estG : ℚ) (R : Vec)
    (hR : R = mkRegLarge n m k ctrl.xRegLarge ctrl.yRegLarge ctrl.zRegLarge
      (estA + estG + estQ + 1))
    (h1 : orc1.twoStageSolve (sparseJOrig JStatic m n s z) R (ones (n + m + k))
        (sparseJ JStatic m n s z R) d
      = orc2.twoStageSolve (sparseJOrig JStatic m n s z) R (ones (n + m + k))
        (sparseJ JStatic m n s z R) d)
    (h2 : orc1.regularizedSolve (sparseJOrig JStatic m n s z) R
        (ones (n + m + k)) (sparseJ JStatic m n s z R) d
      = orc2.regularizedSolve (sparseJOrig JStatic m n s z) R
        (ones (n + m + k)) (sparseJ JStatic m n s z R) d) :
    (i < n → R.getD i 0 = ctrl.xRegLarge * (estA + estG + estQ + 1))
    ∧ (n ≤ i → i < n + m →
        R.getD i 0 = -ctrl.yRegLarge * (estA + estG + estQ + 1))
    ∧ (n + m ≤ i → i < n + m + k →
        R.getD i 0 = -ctrl.zRegLarge * (estA + estG + estQ + 1))
    ∧ (sparseJ JStatic m n s z R i j
        = sparseJOrig JStatic m n s z i j
          + (if i = j then R.getD i 0 else 0))
    ∧ sparseSolveStep orc1 ctrl JStatic R m n k s z d met
      = sparseSolveStep orc2 ctrl JStatic R m n k s z d met := by
  refine ⟨fun hi => ?_, fun hi1 hi2 => ?_, fun hi1 hi2 => ?_, ?_, ?_⟩
  · rw [hR, mkRegLarge_getD _ _ _ _ _ _ _ _ (by omega), if_pos hi]
  · rw [hR, mkRegLarge_getD _ _ _ _ _ _ _ _ (by omega),
      if_neg (by omega), if_pos hi2]
  · rw [hR, mkRegLarge_getD _ _ _ _ _ _ _ _ hi2,
      if_neg (by omega), if_neg (by omega)]
  · simp only [sparseJ, updateDiagonal]
    by_cases hij : i = j
    · simp [hij]
    · simp [hij]
  · simp only [sparseSolveStep]
    rw [h1, h2]

theorem claim_C6_witness :
    (mkRegLarge 1 1 1 ctrl0.xRegLarge ctrl0.yRegLarge ctrl0.zRegLarge
        ((0 : ℚ) + 0 + 0 + 1)).getD 0 0
      = ctrl0.xRegLarge * ((0 : ℚ) + 0 + 0 + 1)
    ∧ sparseJ (fun _ _ => 0) 1 1 [1] [1]
        (mkRegLarge 1 1 1 ctrl0.xRegLarge ctrl0.yRegLarge ctrl0.zRegLarge
          ((0 : ℚ) + 0 + 0 + 1)) 0 0
      = sparseJOrig (fun _ _ => 0) 1 1 [1] [1] 0 0
        + (if (0 : ℕ) = 0 then
            (mkRegLarge 1 1 1 ctrl0.xRegLarge ctrl0.yRegLarge ctrl0.zRegLarge
              ((0 : ℚ) + 0 + 0 + 1)).getD 0 0
           else 0) := by
  have hw := claim_C6 oracle0 oracle0 ctrl0 (fun _ _ => 0) 1 1 1 0 0 [1] [1]
    [0, 0, 0] false 0 0 0 _ rfl rfl rfl
  exact ⟨hw.1 (by omega), hw.2.2.2.1⟩

/-- Claim C9: with outer equilibration enabled, an error exit leaves the
output iterates in the equilibrated coordinate system: the unscaling via
dCol, dRowA, dRowG is applied only on normal return. -/
theorem claim_C9 (orc : Oracle) (ctrl : IPMCtrl) (Q A G : Mat)
    (b c h x y z s : Vec) (e : IPMError) (he : ctrl.outerEquil = true) :
    ((IPMDense orc ctrl Q A G b c h x y z s).2 = some e →
      IPMDense orc ctrl Q A G b c h x y z s
        = ((ipmRun orc ctrl Q A G b c h x y z s).1, some e))
    ∧ ((IPMDense orc ctrl Q A G b c h x y z s).2 = none →
      IPMDense orc ctrl Q A G b c h x y z s
        = (unscaleIters (ipmSetup orc ctrl Q A G b c h x y z s).dCol
            (ipmSetup orc ctrl Q A G b c h x y z s).dRowA
            (ipmSetup orc ctrl Q A G b c h x y z s).dRowG
            (ipmRun orc ctrl Q A G b c h x y z s).1, none)) := by
  have hunf : IPMDense orc ctrl Q A G b c h x y z s
      = match (ipmRun orc ctrl Q A G b c h x y z s).2 with
        | some e0 => ((ipmRun orc ctrl Q A G b c h x y z s).1, some e0)
        | none =>
            (if ctrl.outerEquil then
              unscaleIters (ipmSetup orc ctrl Q A G b c h x y z s).dCol
                (ipmSetup orc ctrl Q A G b c h x y z s).dRowA
                (ipmSetup orc ctrl Q A G b c h x y z s).dRowG
                (ipmRun orc ctrl Q A G b c h x y z s).1
             else (ipmRun orc ctrl Q A G b c h x y z s).1, none) := rfl
  rcases hcase : (ipmRun orc ctrl Q A G b c h x y z s).2 with _ | e2
  · constructor
    · intro hsome
      rw [hunf, hcase] at hsome
      simp at hsome
    · intro _
      rw [hunf, hcase]
      simp [he]
  · constructor
    · intro hsome
      rw [hunf, hcase] at hsome
      simp at hsome
      subst hsome
      rw [hunf, hcase]
    · intro hnone
      rw [hunf, hcase] at hnone
      simp at hnone

theorem claim_C9_witness :
    (IPMDense oracle9 ctrl9 [] [] [[]] [] [] [0] [] [] [1] [-1]).2
      = some (IPMError.invalidIterate 1 0)
    ∧ IPMDense oracle9 ctrl9 [] [] [[]] [] [] [0] [] [] [1] [-1]
      = ((ipmRun oracle9 ctrl9 [] [] [[]] [] [] [0] [] [] [1] [-1]).1,
         some (IPMError.invalidIterate 1 0)) := by
  have hsome : (IPMDense oracle9 ctrl9 [] [] [[]] [] [] [0] [] [] [1] [-1]).2
      = some (IPMError.invalidIterate 1 0) := by
    norm_num [IPMDense, ipmRun, ipmSetup, initializeIters, ipmLoop,
      coneCheckStep, numOutside, oracle9, ctrl9, diagScale, diagSolve,
      rowSolve, colSolve, width, ones, List.countP, List.countP.go]
  exact ⟨hsome,
    (claim_C9 oracle9 ctrl9 [] [] [[]] [] [] [0] [] [] [1] [-1]
      (IPMError.invalidIterate 1 0) rfl).1 hsome⟩

/-- Claim C2: with maxIts = 0, a warm start (both init flags set) and no
outer equilibration, and positive warm-start s and z, the driver takes no
Newton step: the loop performs one residual-and-gap computation, the
iterates are returned unchanged, success is reported exactly when the
warm-start iterate already meets all three tolerances, and the
iteration-limit error naming the limit is raised otherwise. -/
theorem claim_C2 (orc : Oracle) (ctrl : IPMCtrl) (Q A G : Mat)
    (b c h x y z s : Vec)
    (hmax : ctrl.maxIts = 0) (hp : ctrl.primalInit = true)
    (hd : ctrl.dualInit = true) (he : ctrl.outerEquil = false)
    (hs : numOutside s = 0) (hz : numOutside z = 0) :
    IPMDense orc ctrl Q A G b c h x y z s
      = ((x, y, z, s),
         if metTolB ctrl (iterQuantities orc ⟨Q, A, G, b, c, h⟩
             (orc.nrm2 b) (orc.nrm2 c) (orc.nrm2 h) x y z s) = true
         then none
         else some (IPMError.iterLimit ctrl.maxIts)) := by
  have hcone : coneCheckStep orc ctrl ⟨Q, A, G, b, c, h⟩ (orc.nrm2 b)
      (orc.nrm2 c) (orc.nrm2 h) 0 1 x y z s
      = gateAndStep orc ctrl ⟨Q, A, G, b, c, h⟩ (orc.nrm2 b)
          (orc.nrm2 c) (orc.nrm2 h) 0 1 x y z s := by
    simp only [coneCheckStep]
    rw [hs, hz]
    simp
  have hS : ipmSetup orc ctrl Q A G b c h x y z s
      = ⟨Q, A, G, b, c, h, x, y, z, s, ones A.length, ones G.length,
         ones (width A)⟩ := by
    simp [ipmSetup, he]
  have hst0 : initializeIters orc Q A G b c h ctrl.primalInit ctrl.dualInit
      ctrl.standardInitShift x y z s = (x, y, z, s) := by
    simp [initializeIters, hp, hd]
  cases hB : metTolB ctrl (iterQuantities orc ⟨Q, A, G, b, c, h⟩
      (orc.nrm2 b) (orc.nrm2 c) (orc.nrm2 h) x y z s) with
  | true =>
    have hgate : gateAndStep orc ctrl ⟨Q, A, G, b, c, h⟩ (orc.nrm2 b)
        (orc.nrm2 c) (orc.nrm2 h) 0 1 x y z s
        = IterStep.done (x, y, z, s) none := by
      simp only [gateAndStep, hB, if_true]
      by_cases hdim : ctrl.minDimacsDecreaseRatio * 1
          ≤ (iterQuantities orc ⟨Q, A, G, b, c, h⟩ (orc.nrm2 b)
              (orc.nrm2 c) (orc.nrm2 h) x y z s).dimacsError
      · rw [if_pos hdim]
      · rw [if_neg hdim, if_pos hmax.symm]
    have hrun : ipmRun orc ctrl Q A G b c h x y z s = ((x, y, z, s), none) := by
      simp only [ipmRun, hS]
      rw [hst0]
      simp only [ipmLoop]
      rw [hcone, hgate]
    simp only [IPMDense]
    rw [hrun]
    simp [he]
  | false =>
    have hgate : gateAndStep orc ctrl ⟨Q, A, G, b, c, h⟩ (orc.nrm2 b)
        (orc.nrm2 c) (orc.nrm2 h) 0 1 x y z s
        = IterStep.done (x, y, z, s)
            (some (IPMError.iterLimit ctrl.maxIts)) := by
      simp only [gateAndStep, hB, Bool.false_eq_true, if_false]
      rw [if_pos hmax.symm]
    have hrun : ipmRun orc ctrl Q A G b c h x y z s
        = ((x, y, z, s), some (IPMError.iterLimit ctrl.maxIts)) := by
      simp only [ipmRun, hS]
      rw [hst0]
      simp only [ipmLoop]
      rw [hcone, hgate]
    simp only [IPMDense]
    rw [hrun]
    simp

theorem claim_C2_witness :
    IPMDense oracle0 ctrl0 [] [] [] [] [] [] [] [] [] []
      = (([], [], [], []), none) := by
  have hw := claim_C2 oracle0 ctrl0 [] [] [] [] [] [] [] [] [] []
    rfl rfl rfl rfl rfl rfl
  rw [hw]
  norm_num [metTolB, iterQuantities, dualityMeasure, dot, hemvLower,
    RelativeObjectiveGap, RelativeComplementarityGap, vadd, scale,
    matVec, matTVec, width, hadamard, oracle0, ctrl0]

end Elem
